import Mathlib

/-!
A shallow embedding of `examples/python-client.py` from the record-mcp
repository.  The file models the `RecordMcpClient` class: its constructor,
the generic `_request` helper, the tool-invocation operation `call_tool`,
the auxiliary GET operations, and the five domain convenience methods.
Outbound HTTP traffic is made explicit: each operation returns the list of
HTTP requests it issued together with its result, and the network is an
arbitrary function from requests to responses.  The JSON codec used by the
transport layer (the Python `json`/`requests` machinery, which is not part
of the repository) is modelled from the spec and proved to round-trip.
-/

/-- A JSON-compatible Python value: `None`, booleans, numbers (modelled as
integers), strings, lists, and string-keyed dicts (as association lists,
preserving insertion order the way Python dicts do). -/
inductive Json where
  | null : Json
  | bool (b : Bool) : Json
  | num (n : Int) : Json
  | str (s : String) : Json
  | arr (elems : List Json) : Json
  | obj (members : List (String × Json)) : Json

/-- The decimal digit character for `n` (meaningful for `n < 10`). -/
def dchar (n : Nat) : Char := Char.ofNat (48 + n)

/-- Decimal digit characters of a natural number, most significant first. -/
def natChars (n : Nat) : List Char :=
  if _h : n < 10 then [dchar n] else natChars (n / 10) ++ [dchar (n % 10)]
termination_by n
decreasing_by omega

/-- Decimal characters of an integer: optional minus sign, then digits. -/
def intChars (i : Int) : List Char :=
  if i < 0 then '-' :: natChars i.natAbs else natChars i.toNat

/-- JSON string escaping of one character: quote and backslash get a
backslash prefix, everything else stands for itself. -/
def escChar (c : Char) : List Char :=
  if c = '"' ∨ c = '\\' then ['\\', c] else [c]

/-- JSON string escaping of a character list. -/
def escStr : List Char → List Char
  | [] => []
  | c :: cs => escChar c ++ escStr cs

mutual
/-- Modelled from the spec: the JSON serialization that the Python
`requests`/`json` libraries (external to this repository) apply to a
JSON-compatible value when it is sent as a request body.  Compact form:
no whitespace, strings escape only quote and backslash. -/
def encJson : Json → List Char
  | .null => "null".data
  | .bool true => "true".data
  | .bool false => "false".data
  | .num i => intChars i
  | .str s => '"' :: (escStr s.data ++ ['"'])
  | .arr es => '[' :: (encElems es ++ [']'])
  | .obj ms => '\x7b' :: (encMembers ms ++ ['\x7d'])

/-- Comma-separated encodings of array elements. -/
def encElems : List Json → List Char
  | [] => []
  | [e] => encJson e
  | e :: es => encJson e ++ ',' :: encElems es

/-- One `"key":value` object member. -/
def encKV : String × Json → List Char
  | (k, v) => '"' :: (escStr k.data ++ '"' :: ':' :: encJson v)

/-- Comma-separated encodings of object members. -/
def encMembers : List (String × Json) → List Char
  | [] => []
  | [kv] => encKV kv
  | kv :: ms => encKV kv ++ ',' :: encMembers ms
end

/-- Parse a run of decimal digits, accumulating onto `a`; stops at the
first non-digit character. -/
def pNatAcc : Nat → List Char → Nat × List Char
  | a, [] => (a, [])
  | a, c :: r => if c.isDigit then pNatAcc (10 * a + (c.toNat - 48)) r else (a, c :: r)

/-- Parse the body of a JSON string (after the opening quote) up to the
closing quote, undoing `escChar` escapes. -/
def pStr : List Char → Option (List Char × List Char)
  | [] => none
  | '"' :: r => some ([], r)
  | '\\' :: [] => none
  | '\\' :: e :: r2 =>
    if e = '"' ∨ e = '\\' then
      match pStr r2 with
      | some (s, r3) => some (e :: s, r3)
      | none => none
    else none
  | c :: r =>
    match pStr r with
    | some (s, r3) => some (c :: s, r3)
    | none => none

/-- Modelled from the spec: the JSON parser that `response.json()` (the
Python `requests` library, external to this repository) applies to a
response body.  Fueled recursive-descent over the compact grammar emitted
by `encJson`; after an array element or object member, a comma makes the
parser resume on the reopened collection. -/
def pVal : Nat → List Char → Option (Json × List Char)
  | 0, _ => none
  | f + 1, cs =>
    match cs with
    | 'n' :: 'u' :: 'l' :: 'l' :: r => some (.null, r)
    | 't' :: 'r' :: 'u' :: 'e' :: r => some (.bool true, r)
    | 'f' :: 'a' :: 'l' :: 's' :: 'e' :: r => some (.bool false, r)
    | '"' :: r =>
      match pStr r with
      | some (s, r1) => some (.str ⟨s⟩, r1)
      | none => none
    | '[' :: r =>
      match r with
      | [] => none
      | c :: r0 =>
        if c = ']' then some (.arr [], r0)
        else
          match pVal f (c :: r0) with
          | some (v, r1) =>
            match r1 with
            | ']' :: r2 => some (.arr [v], r2)
            | ',' :: r2 =>
              match pVal f ('[' :: r2) with
              | some (.arr vs, r3) => some (.arr (v :: vs), r3)
              | _ => none
            | _ => none
          | none => none
    | '\x7b' :: r =>
      match r with
      | [] => none
      | c :: r0 =>
        if c = '\x7d' then some (.obj [], r0)
        else if c = '"' then
          match pStr r0 with
          | some (k, r1) =>
            match r1 with
            | ':' :: r2 =>
              match pVal f r2 with
              | some (v, r3) =>
                match r3 with
                | '\x7d' :: r4 => some (.obj [(⟨k⟩, v)], r4)
                | ',' :: r4 =>
                  match pVal f ('\x7b' :: r4) with
                  | some (.obj ms, r5) => some (.obj ((⟨k⟩, v) :: ms), r5)
                  | _ => none
                | _ => none
              | none => none
            | _ => none
          | none => none
        else none
    | '-' :: r =>
      match r with
      | [] => none
      | c :: r0 =>
        if c.isDigit then
          let p := pNatAcc (c.toNat - 48) r0
          some (.num (-(p.1 : Int)), p.2)
        else none
    | c :: r =>
      if c.isDigit then
        let p := pNatAcc (c.toNat - 48) r
        some (.num (p.1 : Int), p.2)
      else none
    | [] => none

/-- Serialize a JSON value to a string. -/
def Json.encode (j : Json) : String := ⟨encJson j⟩

/-- Decode a string as one complete JSON document, or fail. -/
def Json.decode (s : String) : Option Json :=
  match pVal (s.data.length + 1) s.data with
  | some (j, []) => some j
  | _ => none

/-- An outbound HTTP request as assembled by the client: target URL,
method, the session headers it is sent with, and an optional JSON body. -/
structure HttpRequest where
  url : String
  method : String
  headers : List (String × String)
  body : Option Json

/-- An HTTP response: numeric status code and raw body text. -/
structure HttpResponse where
  status : Nat
  body : String

/-- The errors `_request` can signal: the `ValueError` for an unsupported
method (carrying its message), the `HTTPError` that
`response.raise_for_status()` raises (carrying status and response body),
and a JSON decoding failure from `response.json()`. -/
inductive ClientError where
  | unsupportedMethod (message : String) : ClientError
  | httpStatusError (status : Nat) (body : String) : ClientError
  | jsonDecodeError (body : String) : ClientError

/-- `requests.Response.raise_for_status` raises exactly for client- and
server-error statuses, `400 ≤ status < 600`. -/
def isErrorStatus (s : Nat) : Bool := decide (400 ≤ s ∧ s < 600)

/-- The tail of `_request` after the HTTP call:
`response.raise_for_status()` followed by `return response.json()`. -/
def finishResponse (r : HttpResponse) : Except ClientError Json :=
  if isErrorStatus r.status then .error (.httpStatusError r.status r.body)
  else
    match Json.decode r.body with
    | some j => .ok j
    | none => .error (.jsonDecodeError r.body)

/-- The client object's state: `self.base_url`, `self.api_key`, and the
headers installed on `self.session` by the constructor. -/
structure RecordMcpClient where
  base_url : String
  api_key : String
  session_headers : List (String × String)

/-- Python's `base_url.rstrip('/')`: remove every trailing `'/'`. -/
def rstripSlash (s : String) : String :=
  ⟨(s.data.reverse.dropWhile (fun c => c = '/')).reverse⟩

/-- `RecordMcpClient.__init__`: store the endpoint with trailing slashes
stripped, store the key, and install the two session headers. -/
def RecordMcpClient.init (base_url api_key : String) : RecordMcpClient :=
  { base_url := rstripSlash base_url
    api_key := api_key
    session_headers :=
      [("Authorization", "Bearer " ++ api_key), ("Content-Type", "application/json")] }

/-- `RecordMcpClient._request`: build the URL, dispatch on the method
string (GET and POST issue one call through the session; anything else
raises `ValueError` before any network activity), then run
`raise_for_status` and decode the body.  The transport (the network) is
an explicit function argument, and the first component of the result is
the list of HTTP requests actually issued. -/
def RecordMcpClient.request (c : RecordMcpClient) (transport : HttpRequest → HttpResponse)
    (endpoint method : String) (body : Option Json) :
    List HttpRequest × Except ClientError Json :=
  let url := c.base_url ++ endpoint
  if method = "GET" then
    let req : HttpRequest := ⟨url, "GET", c.session_headers, none⟩
    ([req], finishResponse (transport req))
  else if method = "POST" then
    let req : HttpRequest := ⟨url, "POST", c.session_headers, body⟩
    ([req], finishResponse (transport req))
  else
    ([], .error (.unsupportedMethod ("Unsupported method: " ++ method)))

/-- The Python expression `args or \x7b\x7d`: `None` and the empty dict
are falsy, so both are replaced by a fresh empty dict; any non-empty dict
passes through. -/
def argsOrEmpty (args : Option (List (String × Json))) : List (String × Json) :=
  match args with
  | none => []
  | some l => if l.isEmpty then [] else l

/-- `RecordMcpClient.call_tool`: POST to `/mcp` with body
`\x7b'tool': tool_name, 'arguments': args or \x7b\x7d\x7d\x7d`. -/
def RecordMcpClient.call_tool (c : RecordMcpClient) (transport : HttpRequest → HttpResponse)
    (tool_name : String) (args : Option (List (String × Json))) :
    List HttpRequest × Except ClientError Json :=
  c.request transport "/mcp" "POST"
    (some (.obj [("tool", .str tool_name), ("arguments", .obj (argsOrEmpty args))]))

/-- `RecordMcpClient.list_tools`: GET `/tools`. -/
def RecordMcpClient.list_tools (c : RecordMcpClient)
    (transport : HttpRequest → HttpResponse) :
    List HttpRequest × Except ClientError Json :=
  c.request transport "/tools" "GET" none

/-- `RecordMcpClient.health`: GET `/health`. -/
def RecordMcpClient.health (c : RecordMcpClient)
    (transport : HttpRequest → HttpResponse) :
    List HttpRequest × Except ClientError Json :=
  c.request transport "/health" "GET" none

/-- The JSON value the body serialization gives to the Python
`List[Dict[str, str]]` argument of `add_review_type`. -/
def fieldsJson (fields : List (List (String × String))) : Json :=
  .arr (fields.map (fun f => .obj (f.map (fun p => (p.1, Json.str p.2)))))

/-- `RecordMcpClient.list_review_types`. -/
def RecordMcpClient.list_review_types (c : RecordMcpClient)
    (transport : HttpRequest → HttpResponse) :
    List HttpRequest × Except ClientError Json :=
  c.call_tool transport "list_review_types" none

/-- `RecordMcpClient.get_review_type`. -/
def RecordMcpClient.get_review_type (c : RecordMcpClient)
    (transport : HttpRequest → HttpResponse) (type_name : String) :
    List HttpRequest × Except ClientError Json :=
  c.call_tool transport "get_review_type" (some [("typeName", .str type_name)])

/-- `RecordMcpClient.add_review_type`. -/
def RecordMcpClient.add_review_type (c : RecordMcpClient)
    (transport : HttpRequest → HttpResponse) (name : String)
    (fields : List (List (String × String))) :
    List HttpRequest × Except ClientError Json :=
  c.call_tool transport "add_review_type"
    (some [("name", .str name), ("fields", fieldsJson fields)])

/-- `RecordMcpClient.add_field_to_type`. -/
def RecordMcpClient.add_field_to_type (c : RecordMcpClient)
    (transport : HttpRequest → HttpResponse) (type_name field_name field_type : String) :
    List HttpRequest × Except ClientError Json :=
  c.call_tool transport "add_field_to_type"
    (some [("typeName", .str type_name), ("fieldName", .str field_name),
           ("fieldType", .str field_type)])

/-- `RecordMcpClient.add_review_record`. -/
def RecordMcpClient.add_review_record (c : RecordMcpClient)
    (transport : HttpRequest → HttpResponse) (type_name : String)
    (data : List (String × Json)) :
    List HttpRequest × Except ClientError Json :=
  c.call_tool transport "add_review_record"
    (some [("typeName", .str type_name), ("data", .obj data)])

/-- `true` iff the list does not begin with a decimal digit, so that a
number parse cannot continue into it. -/
def notDigitStart : List Char → Bool
  | [] => true
  | c :: _ => !c.isDigit

/-- The value obtained by appending the decimal digits of `n` to the
digit accumulator `a`. -/
def pushDigits (a : Nat) (n : Nat) : Nat :=
  if _h : n < 10 then 10 * a + n else 10 * pushDigits a (n / 10) + n % 10
termination_by n
decreasing_by omega

/-! ### Helper lemmas -/

theorem finishResponse_ok (r : HttpResponse) (j : Json)
    (hs : isErrorStatus r.status = false) (hd : Json.decode r.body = some j) :
    finishResponse r = .ok j := by
  simp [finishResponse, hs, hd]

theorem request_headers_eq (c : RecordMcpClient) (transport : HttpRequest → HttpResponse)
    (endpoint method : String) (body : Option Json) :
    ∀ req ∈ (c.request transport endpoint method body).1, req.headers = c.session_headers := by
  intro req hreq
  unfold RecordMcpClient.request at hreq
  split at hreq
  · simp only [List.mem_singleton] at hreq
    rw [hreq]
  · split at hreq
    · simp only [List.mem_singleton] at hreq
      rw [hreq]
    · simp at hreq

/-! ### Claims about the client operations -/

/-- C1: for every tool name and arguments mapping, `call_tool` issues
exactly one outbound HTTP POST to the fixed route `/mcp` whose JSON body
is the object with fields `tool` (the name) and `arguments` (the given
mapping, the empty mapping when `args` is `None`/omitted), and it returns
the decoded JSON response of that single request. -/
theorem call_tool_single_post (c : RecordMcpClient) (transport : HttpRequest → HttpResponse)
    (tool_name : String) (args : Option (List (String × Json))) :
    c.call_tool transport tool_name args =
      ([⟨c.base_url ++ "/mcp", "POST", c.session_headers,
         some (.obj [("tool", .str tool_name), ("arguments", .obj (argsOrEmpty args))])⟩],
       finishResponse (transport
         ⟨c.base_url ++ "/mcp", "POST", c.session_headers,
          some (.obj [("tool", .str tool_name), ("arguments", .obj (argsOrEmpty args))])⟩))
    ∧ argsOrEmpty none = [] := by
  constructor
  · rfl
  · rfl

/-- C2: for every method string other than `"GET"` and `"POST"`, the
generic request operation fails with the unsupported-method `ValueError`
and issues no HTTP request at all (its trace of outbound calls is empty). -/
theorem request_unsupported_method (c : RecordMcpClient)
    (transport : HttpRequest → HttpResponse) (endpoint : String) (body : Option Json)
    (method : String) (hget : method ≠ "GET") (hpost : method ≠ "POST") :
    c.request transport endpoint method body =
      ([], .error (.unsupportedMethod ("Unsupported method: " ++ method))) := by
  simp [RecordMcpClient.request, hget, hpost]

theorem request_unsupported_method_witness :
    (RecordMcpClient.init "http://e" "k").request (fun _ => ⟨200, "null"⟩) "/mcp" "PUT" none =
      ([], .error (.unsupportedMethod ("Unsupported method: " ++ "PUT"))) :=
  request_unsupported_method (RecordMcpClient.init "http://e" "k") (fun _ => ⟨200, "null"⟩)
    "/mcp" none "PUT" (by decide) (by decide)

/-- C9: `call_tool` substitutes a fresh empty mapping for any falsy
arguments value (`args or \x7b\x7d`), so passing `None` (also what the
omitted default gives) and passing an explicit empty mapping produce the
very same call with request body `\x7b'tool': name, 'arguments': \x7b\x7d\x7d`:
the explicitly passed empty mapping is replaced rather than forwarded. -/
theorem call_tool_falsy_args (c : RecordMcpClient) (transport : HttpRequest → HttpResponse)
    (tool_name : String) :
    c.call_tool transport tool_name none = c.call_tool transport tool_name (some [])
    ∧ (c.call_tool transport tool_name none).1 =
        [⟨c.base_url ++ "/mcp", "POST", c.session_headers,
          some (.obj [("tool", .str tool_name), ("arguments", .obj [])])⟩] := by
  constructor
  · rfl
  · rfl

/-- C10: the method dispatch in `_request` compares the method string
literally and case-sensitively, so `"get"`, `"post"`, `"PUT"` and
`"DELETE"` all raise the unsupported-method `ValueError` with an empty
trace of outbound calls. -/
theorem request_method_case_sensitive (c : RecordMcpClient)
    (transport : HttpRequest → HttpResponse) (endpoint : String) (body : Option Json) :
    c.request transport endpoint "get" body =
      ([], .error (.unsupportedMethod ("Unsupported method: " ++ "get")))
    ∧ c.request transport endpoint "post" body =
      ([], .error (.unsupportedMethod ("Unsupported method: " ++ "post")))
    ∧ c.request transport endpoint "PUT" body =
      ([], .error (.unsupportedMethod ("Unsupported method: " ++ "PUT")))
    ∧ c.request transport endpoint "DELETE" body =
      ([], .error (.unsupportedMethod ("Unsupported method: " ++ "DELETE"))) := by
  refine ⟨?_, ?_, ?_, ?_⟩ <;> rfl

/-- C5: every domain convenience operation equals `call_tool` applied to
its fixed tool name and the arguments mapping assembled from its own
parameters; in particular the concrete `add_review_type` scenario for the
`coffee` type produces one POST to `/mcp` with exactly the prescribed
JSON body. -/
theorem convenience_wrappers_are_call_tool (c : RecordMcpClient)
    (transport : HttpRequest → HttpResponse) (t n fn ft : String)
    (fs : List (List (String × String))) (d : List (String × Json)) :
    c.list_review_types transport = c.call_tool transport "list_review_types" none
    ∧ c.get_review_type transport t =
        c.call_tool transport "get_review_type" (some [("typeName", .str t)])
    ∧ c.add_review_type transport n fs =
        c.call_tool transport "add_review_type"
          (some [("name", .str n), ("fields", fieldsJson fs)])
    ∧ c.add_field_to_type transport t fn ft =
        c.call_tool transport "add_field_to_type"
          (some [("typeName", .str t), ("fieldName", .str fn), ("fieldType", .str ft)])
    ∧ c.add_review_record transport t d =
        c.call_tool transport "add_review_record"
          (some [("typeName", .str t), ("data", .obj d)])
    ∧ (c.add_review_type transport "coffee"
         [[("name", "flavor"), ("type", "string")], [("name", "rating"), ("type", "number")]]).1 =
        [⟨c.base_url ++ "/mcp", "POST", c.session_headers,
          some (.obj [("tool", .str "add_review_type"),
                      ("arguments", .obj
                        [("name", .str "coffee"),
                         ("fields", .arr
                           [.obj [("name", .str "flavor"), ("type", .str "string")],
                            .obj [("name", .str "rating"), ("type", .str "number")]])])])⟩] := by
  refine ⟨?_, ?_, ?_, ?_, ?_, ?_⟩ <;> rfl

/-- C6: `health()` issues exactly one GET to the fixed route `/health`
with no request body, `list_tools()` issues exactly one GET to the fixed
route `/tools` with no request body, both return
`finishResponse` of that single response (the inherited `_request`
semantics), and on a success status with a well-formed JSON body the
decoded response comes back unchanged. -/
theorem health_list_tools_single_get (c : RecordMcpClient)
    (transport : HttpRequest → HttpResponse) :
    c.health transport =
      ([⟨c.base_url ++ "/health", "GET", c.session_headers, none⟩],
       finishResponse (transport ⟨c.base_url ++ "/health", "GET", c.session_headers, none⟩))
    ∧ c.list_tools transport =
      ([⟨c.base_url ++ "/tools", "GET", c.session_headers, none⟩],
       finishResponse (transport ⟨c.base_url ++ "/tools", "GET", c.session_headers, none⟩))
    ∧ ∀ j : Json,
        isErrorStatus (transport
          ⟨c.base_url ++ "/health", "GET", c.session_headers, none⟩).status = false →
        Json.decode (transport
          ⟨c.base_url ++ "/health", "GET", c.session_headers, none⟩).body = some j →
        (c.health transport).2 = .ok j := by
  refine ⟨rfl, rfl, fun j hs hd => ?_⟩
  exact finishResponse_ok _ j hs hd

theorem health_list_tools_single_get_witness :
    ((RecordMcpClient.init "http://e" "k").health (fun _ => ⟨200, "null"⟩)).2 =
      .ok Json.null := by
  have h := health_list_tools_single_get (RecordMcpClient.init "http://e" "k")
    (fun _ => ⟨200, "null"⟩)
  exact h.2.2 Json.null rfl rfl

/-- C7: construction establishes the configuration pair and the two
session headers once (they are exactly the stored fields of the client
value, which no operation ever rebuilds), and every outbound request of
every public operation carries those same two headers. -/
theorem client_config_invariant (b k : String) (transport : HttpRequest → HttpResponse)
    (t n fn ft : String) (args : Option (List (String × Json)))
    (fs : List (List (String × String))) (d : List (String × Json)) :
    (RecordMcpClient.init b k).base_url = rstripSlash b
    ∧ (RecordMcpClient.init b k).api_key = k
    ∧ (RecordMcpClient.init b k).session_headers =
        [("Authorization", "Bearer " ++ k), ("Content-Type", "application/json")]
    ∧ (∀ req ∈ ((RecordMcpClient.init b k).call_tool transport t args).1,
        req.headers = [("Authorization", "Bearer " ++ k), ("Content-Type", "application/json")])
    ∧ (∀ req ∈ ((RecordMcpClient.init b k).list_tools transport).1,
        req.headers = [("Authorization", "Bearer " ++ k), ("Content-Type", "application/json")])
    ∧ (∀ req ∈ ((RecordMcpClient.init b k).health transport).1,
        req.headers = [("Authorization", "Bearer " ++ k), ("Content-Type", "application/json")])
    ∧ (∀ req ∈ ((RecordMcpClient.init b k).list_review_types transport).1,
        req.headers = [("Authorization", "Bearer " ++ k), ("Content-Type", "application/json")])
    ∧ (∀ req ∈ ((RecordMcpClient.init b k).get_review_type transport t).1,
        req.headers = [("Authorization", "Bearer " ++ k), ("Content-Type", "application/json")])
    ∧ (∀ req ∈ ((RecordMcpClient.init b k).add_review_type transport n fs).1,
        req.headers = [("Authorization", "Bearer " ++ k), ("Content-Type", "application/json")])
    ∧ (∀ req ∈ ((RecordMcpClient.init b k).add_field_to_type transport t fn ft).1,
        req.headers = [("Authorization", "Bearer " ++ k), ("Content-Type", "application/json")])
    ∧ (∀ req ∈ ((RecordMcpClient.init b k).add_review_record transport t d).1,
        req.headers = [("Authorization", "Bearer " ++ k), ("Content-Type", "application/json")]) := by
  refine ⟨rfl, rfl, rfl, ?_, ?_, ?_, ?_, ?_, ?_, ?_, ?_⟩ <;>
    exact request_headers_eq (RecordMcpClient.init b k) transport _ _ _

theorem client_config_invariant_witness :
    HttpRequest.headers
      ⟨"http://e" ++ "/health", "GET",
       [("Authorization", "Bearer " ++ "k"), ("Content-Type", "application/json")], none⟩ =
      [("Authorization", "Bearer " ++ "k"), ("Content-Type", "application/json")] := by
  have h := client_config_invariant "http://e" "k" (fun _ => ⟨200, "null"⟩)
    "t" "n" "f" "s" none [] []
  exact h.2.2.2.2.2.1 _ (List.mem_singleton.mpr rfl)

/-- C3: when the generic request operation reaches the HTTP call (method
GET or POST), it issues exactly one request; a non-success status
(`400 ≤ status < 600`, the `raise_for_status` range) makes the operation
fail with the remote error carrying that status and body, so the success
path is never reached, while on a success status a well-formed JSON
response body is decoded and returned. -/
theorem request_status_dispatch (c : RecordMcpClient) (transport : HttpRequest → HttpResponse)
    (endpoint method : String) (body : Option Json)
    (hm : method = "GET" ∨ method = "POST") :
    ∃ req : HttpRequest,
      (c.request transport endpoint method body).1 = [req]
      ∧ (isErrorStatus (transport req).status = true →
          (c.request transport endpoint method body).2 =
            .error (.httpStatusError (transport req).status (transport req).body))
      ∧ (isErrorStatus (transport req).status = false →
          ∀ j : Json, Json.decode (transport req).body = some j →
            (c.request transport endpoint method body).2 = .ok j) := by
  rcases hm with h | h
  · subst h
    refine ⟨⟨c.base_url ++ endpoint, "GET", c.session_headers, none⟩, rfl, fun hs => ?_,
      fun hs j hd => ?_⟩
    · show finishResponse _ = _
      simp [finishResponse, hs]
    · exact finishResponse_ok _ j hs hd
  · subst h
    refine ⟨⟨c.base_url ++ endpoint, "POST", c.session_headers, body⟩, rfl, fun hs => ?_,
      fun hs j hd => ?_⟩
    · show finishResponse _ = _
      simp [finishResponse, hs]
    · exact finishResponse_ok _ j hs hd

theorem request_status_dispatch_witness :
    ((RecordMcpClient.init "http://e" "k").request (fun _ => ⟨404, "gone"⟩) "/x" "GET" none).2 =
      .error (.httpStatusError 404 "gone") := by
  obtain ⟨req, -, h2, -⟩ := request_status_dispatch (RecordMcpClient.init "http://e" "k")
    (fun _ => ⟨404, "gone"⟩) "/x" "GET" none (Or.inl rfl)
  exact h2 rfl

theorem dropWhile_head_ne (p : Char → Bool) :
    ∀ (l : List Char) (c : Char), (l.dropWhile p).head? = some c → p c = false := by
  intro l
  induction l with
  | nil => intro c h; simp at h
  | cons x t ih =>
    intro c h
    by_cases hx : p x
    · exact ih c (by simpa [List.dropWhile, hx] using h)
    · simp only [List.dropWhile, hx, List.head?] at h
      cases h
      simpa using hx

/-- Any occurrence of a doubled slash in `a ++ b` already lies inside `a`
or inside `b` whenever `a` does not end with a slash: concatenation at
such a join point creates no new doubled separator. -/
theorem no_double_slash_join :
    ∀ (a b : List Char), a.getLast? ≠ some '/' →
    ∀ s t : List Char, s ++ '/' :: '/' :: t = a ++ b →
    ['/', '/'] <:+: a ∨ ['/', '/'] <:+: b
  | [], b, _, s, t, h => Or.inr ⟨s, t, by simpa using h⟩
  | x :: a', b, ha, s, t, h => by
    cases s with
    | nil =>
      simp only [List.nil_append, List.cons_append] at h
      injection h with hx h2
      cases a' with
      | nil =>
        subst hx
        simp at ha
      | cons y t' =>
        simp only [List.cons_append] at h2
        injection h2 with hy h3
        subst hx
        subst hy
        exact Or.inl ⟨[], t', by simp⟩
    | cons e s' =>
      simp only [List.cons_append] at h
      injection h with he h2
      cases a' with
      | nil =>
        exact Or.inr ⟨s', t, by simpa using h2⟩
      | cons y t' =>
        have ha' : (y :: t').getLast? ≠ some '/' := by
          rwa [List.getLast?_cons_cons] at ha
        rcases no_double_slash_join (y :: t') b ha' s' t h2 with hin | hin
        · exact Or.inl (List.infix_cons hin)
        · exact Or.inr hin

/-- C4: construction stores the endpoint with every trailing `'/'`
removed (the original endpoint is the stored one followed by some run of
slashes, and the stored one does not end in a slash), installs both the
bearer `Authorization` header and the JSON `Content-Type` header on the
session, and consequently, for every route beginning with `'/'`, the
URL `base_url ++ route` contains no doubled separator born at the join
point: any doubled slash in it was already inside one of the parts. -/
theorem init_endpoint_normalization (b k : String) :
    (∃ n, b.data = (RecordMcpClient.init b k).base_url.data ++ List.replicate n '/')
    ∧ (RecordMcpClient.init b k).base_url.data.getLast? ≠ some '/'
    ∧ ("Authorization", "Bearer " ++ k) ∈ (RecordMcpClient.init b k).session_headers
    ∧ ("Content-Type", "application/json") ∈ (RecordMcpClient.init b k).session_headers
    ∧ ∀ route : String, route.data.head? = some '/' →
        ∀ s t : List Char,
          s ++ '/' :: '/' :: t = ((RecordMcpClient.init b k).base_url ++ route).data →
          ['/', '/'] <:+: (RecordMcpClient.init b k).base_url.data
            ∨ ['/', '/'] <:+: route.data := by
  have hlast : (RecordMcpClient.init b k).base_url.data.getLast? ≠ some '/' := by
    show ((b.data.reverse.dropWhile (fun c => c = '/')).reverse).getLast? ≠ some '/'
    rw [List.getLast?_reverse]
    intro hcon
    have := dropWhile_head_ne (fun c => decide (c = '/')) b.data.reverse '/' hcon
    simp at this
  refine ⟨?_, hlast, ?_, ?_, ?_⟩
  · refine ⟨(b.data.reverse.takeWhile (fun c => c = '/')).length, ?_⟩
    have hT : b.data.reverse.takeWhile (fun c => c = '/') =
        List.replicate (b.data.reverse.takeWhile (fun c => c = '/')).length '/' :=
      List.eq_replicate_of_mem (fun c hc => by simpa using List.mem_takeWhile_imp hc)
    have hsplit := List.takeWhile_append_dropWhile (fun c => decide (c = '/')) b.data.reverse
    calc b.data = b.data.reverse.reverse := (List.reverse_reverse _).symm
      _ = (b.data.reverse.takeWhile (fun c => c = '/')
            ++ b.data.reverse.dropWhile (fun c => c = '/')).reverse := by rw [hsplit]
      _ = (b.data.reverse.dropWhile (fun c => c = '/')).reverse
            ++ (b.data.reverse.takeWhile (fun c => c = '/')).reverse := by
          rw [List.reverse_append]
      _ = (RecordMcpClient.init b k).base_url.data
            ++ List.replicate (b.data.reverse.takeWhile (fun c => c = '/')).length '/' := by
          rw [show (b.data.reverse.takeWhile (fun c => c = '/')).reverse =
              List.replicate (b.data.reverse.takeWhile (fun c => c = '/')).length '/' from by
            conv_lhs => rw [hT]
            rw [List.reverse_replicate]]
          rfl
  · exact List.mem_cons_self _ _
  · exact List.mem_cons_of_mem _ (List.mem_cons_self _ _)
  · intro route _ s t h
    exact no_double_slash_join _ _ hlast s t (by rwa [String.data_append] at h)

theorem init_endpoint_normalization_witness :
    ['/', '/'] <:+: (RecordMcpClient.init "http://x//y/" "k").base_url.data
      ∨ ['/', '/'] <:+: ("/mcp" : String).data := by
  refine (init_endpoint_normalization "http://x//y/" "k").2.2.2.2 "/mcp" rfl
    ['h', 't', 't', 'p', ':'] ['x', '/', '/', 'y', '/', 'm', 'c', 'p'] ?_
  decide

/-! ### The number codec -/

theorem dchar_spec (n : Nat) (h : n < 10) :
    (dchar n).isDigit = true ∧ (dchar n).toNat = 48 + n := by
  interval_cases n <;> exact ⟨by decide, by decide⟩

theorem digit_ne_literals (c : Char) (hd : c.isDigit = true) :
    c ≠ 'n' ∧ c ≠ 't' ∧ c ≠ 'f' ∧ c ≠ '"' ∧ c ≠ '[' ∧ c ≠ '\x7b' ∧ c ≠ '-'
    ∧ c ≠ ']' ∧ c ≠ '\x7d' ∧ c ≠ ',' ∧ c ≠ ':' := by
  refine ⟨?_, ?_, ?_, ?_, ?_, ?_, ?_, ?_, ?_, ?_, ?_⟩ <;>
    (intro hc; subst hc; exact absurd hd (by decide))

theorem natChars_digits (n : Nat) : ∀ c ∈ natChars n, c.isDigit = true := by
  induction n using Nat.strong_induction_on with
  | _ n ih =>
    rw [natChars]
    by_cases h : n < 10
    · simp only [dif_pos h]
      intro c hc
      rw [List.mem_singleton] at hc
      subst hc
      exact (dchar_spec n h).1
    · simp only [dif_neg h]
      intro c hc
      rw [List.mem_append] at hc
      rcases hc with hc | hc
      · exact ih (n / 10) (by omega) c hc
      · rw [List.mem_singleton] at hc
        subst hc
        exact (dchar_spec (n % 10) (by omega)).1

theorem natChars_cons (n : Nat) : ∃ c t, natChars n = c :: t ∧ c.isDigit = true := by
  match hn : natChars n with
  | [] =>
    rw [natChars] at hn
    by_cases h : n < 10
    · simp [dif_pos h] at hn
    · simp [dif_neg h] at hn
  | c :: t => exact ⟨c, t, rfl, natChars_digits n c (hn ▸ List.mem_cons_self c t)⟩

theorem pNatAcc_stop (a : Nat) (rest : List Char) (h : notDigitStart rest = true) :
    pNatAcc a rest = (a, rest) := by
  cases rest with
  | nil => rfl
  | cons c r =>
    simp only [notDigitStart, Bool.not_eq_true'] at h
    simp [pNatAcc, h]

theorem pNatAcc_digit (a : Nat) (c : Char) (r : List Char) (h : c.isDigit = true) :
    pNatAcc a (c :: r) = pNatAcc (10 * a + (c.toNat - 48)) r := by
  simp [pNatAcc, h]

theorem pNatAcc_natChars (n : Nat) :
    ∀ (a : Nat) (rest : List Char),
      pNatAcc a (natChars n ++ rest) = pNatAcc (pushDigits a n) rest := by
  induction n using Nat.strong_induction_on with
  | _ n ih =>
    intro a rest
    rw [natChars, pushDigits]
    by_cases h : n < 10
    · simp only [dif_pos h, List.singleton_append]
      rw [pNatAcc_digit a (dchar n) rest (dchar_spec n h).1, (dchar_spec n h).2,
        Nat.add_sub_cancel_left]
    · simp only [dif_neg h, List.append_assoc, List.singleton_append]
      rw [ih (n / 10) (by omega) a (dchar (n % 10) :: rest),
        pNatAcc_digit _ (dchar (n % 10)) rest (dchar_spec (n % 10) (by omega)).1,
        (dchar_spec (n % 10) (by omega)).2, Nat.add_sub_cancel_left]

theorem pushDigits_zero (n : Nat) : pushDigits 0 n = n := by
  induction n using Nat.strong_induction_on with
  | _ n ih =>
    rw [pushDigits]
    by_cases h : n < 10
    · simp [dif_pos h]
    · rw [dif_neg h, ih (n / 10) (by omega)]
      omega

theorem pNat_complete (n : Nat) (rest : List Char) (h : notDigitStart rest = true) :
    pNatAcc 0 (natChars n ++ rest) = (n, rest) := by
  rw [pNatAcc_natChars, pushDigits_zero, pNatAcc_stop _ _ h]

/-! ### The string codec -/

theorem pStr_escStr (s : List Char) :
    ∀ rest : List Char, pStr (escStr s ++ '"' :: rest) = some (s, rest) := by
  induction s with
  | nil => intro rest; rfl
  | cons c cs ih =>
    intro rest
    show pStr (escChar c ++ escStr cs ++ '"' :: rest) = _
    by_cases hc : c = '"' ∨ c = '\\'
    · rw [show escChar c = ['\\', c] from by simp [escChar, hc]]
      simp only [List.cons_append, List.nil_append]
      rw [show pStr ('\\' :: c :: (escStr cs ++ '"' :: rest)) =
          (if c = '"' ∨ c = '\\' then
            match pStr (escStr cs ++ '"' :: rest) with
            | some (s2, r3) => some (c :: s2, r3)
            | none => none
          else none) from rfl]
      rw [if_pos hc, ih]
    · push_neg at hc
      rw [show escChar c = [c] from by simp [escChar, hc.1, hc.2]]
      simp only [List.cons_append, List.nil_append]
      have hstep : pStr (c :: (escStr cs ++ '"' :: rest)) =
          (match pStr (escStr cs ++ '"' :: rest) with
           | some (s2, r3) => some (c :: s2, r3)
           | none => none) := by
        simp [pStr, hc.1, hc.2]
      rw [hstep, ih]

/-! ### Heads of encoded values, and one-step parser unfoldings -/

theorem encJson_head (j : Json) :
    ∃ c t, encJson j = c :: t ∧ c ≠ ']' ∧ c ≠ '\x7d' := by
  cases j with
  | null => exact ⟨'n', _, rfl, by decide, by decide⟩
  | bool b =>
    cases b with
    | true => exact ⟨'t', _, rfl, by decide, by decide⟩
    | false => exact ⟨'f', _, rfl, by decide, by decide⟩
  | str s => exact ⟨'"', _, rfl, by decide, by decide⟩
  | arr es => exact ⟨'[', _, rfl, by decide, by decide⟩
  | obj ms => exact ⟨'\x7b', _, rfl, by decide, by decide⟩
  | num i =>
    show ∃ c t, intChars i = c :: t ∧ c ≠ ']' ∧ c ≠ '\x7d'
    unfold intChars
    by_cases hi : i < 0
    · rw [if_pos hi]
      exact ⟨'-', _, rfl, by decide, by decide⟩
    · rw [if_neg hi]
      obtain ⟨c, t, hct, hd⟩ := natChars_cons i.toNat
      have hne := digit_ne_literals c hd
      exact ⟨c, t, hct, hne.2.2.2.2.2.2.2.1, hne.2.2.2.2.2.2.2.2.1⟩

theorem pVal_quote (f : Nat) (r : List Char) :
    pVal (f + 1) ('"' :: r) =
      (match pStr r with
       | some (s, r1) => some (.str ⟨s⟩, r1)
       | none => none) := rfl

theorem pVal_arr_cons (f : Nat) (c : Char) (r0 : List Char) :
    pVal (f + 1) ('[' :: c :: r0) =
      (if c = ']' then some (.arr [], r0)
       else
         match pVal f (c :: r0) with
         | some (v, r1) =>
           match r1 with
           | ']' :: r2 => some (.arr [v], r2)
           | ',' :: r2 =>
             match pVal f ('[' :: r2) with
             | some (.arr vs, r3) => some (.arr (v :: vs), r3)
             | _ => none
           | _ => none
         | none => none) := rfl

theorem pVal_obj_cons (f : Nat) (c : Char) (r0 : List Char) :
    pVal (f + 1) ('\x7b' :: c :: r0) =
      (if c = '\x7d' then some (.obj [], r0)
       else if c = '"' then
         match pStr r0 with
         | some (k, r1) =>
           match r1 with
           | ':' :: r2 =>
             match pVal f r2 with
             | some (v, r3) =>
               match r3 with
               | '\x7d' :: r4 => some (.obj [(⟨k⟩, v)], r4)
               | ',' :: r4 =>
                 match pVal f ('\x7b' :: r4) with
                 | some (.obj ms, r5) => some (.obj ((⟨k⟩, v) :: ms), r5)
                 | _ => none
               | _ => none
             | none => none
           | _ => none
         | none => none
       else none) := rfl

theorem pVal_minus (f : Nat) (c : Char) (r0 : List Char) :
    pVal (f + 1) ('-' :: c :: r0) =
      (if c.isDigit then
        let p := pNatAcc (c.toNat - 48) r0
        some (.num (-(p.1 : Int)), p.2)
      else none) := rfl

theorem pVal_digit (f : Nat) (c : Char) (r : List Char) (hd : c.isDigit = true)
    (h1 : c ≠ 'n') (h2 : c ≠ 't') (h3 : c ≠ 'f') (h4 : c ≠ '"') (h5 : c ≠ '[')
    (h6 : c ≠ '\x7b') (h7 : c ≠ '-') :
    pVal (f + 1) (c :: r) =
      (let p := pNatAcc (c.toNat - 48) r
       some (.num (p.1 : Int), p.2)) := by
  simp [pVal, h1, h2, h3, h4, h5, h6, h7, hd]

/-- The codec round-trip at the parser level: parsing an encoded value
(followed by any remainder that cannot extend a number) recovers exactly
that value, given fuel above the input length. -/
theorem pVal_encJson :
    ∀ (j : Json) (f : Nat) (rest : List Char),
      (encJson j ++ rest).length < f → notDigitStart rest = true →
      pVal f (encJson j ++ rest) = some (j, rest)
  | .null, f, rest, hf, _ => by
    cases f with
    | zero => exact absurd hf (Nat.not_lt_zero _)
    | succ f2 => rfl
  | .bool b, f, rest, hf, _ => by
    cases f with
    | zero => exact absurd hf (Nat.not_lt_zero _)
    | succ f2 => cases b <;> rfl
  | .num i, f, rest, hf, hr => by
    cases f with
    | zero => exact absurd hf (Nat.not_lt_zero _)
    | succ f2 =>
      by_cases hi : i < 0
      · have henc : encJson (Json.num i) = '-' :: natChars i.natAbs := by
          show intChars i = _
          rw [intChars, if_pos hi]
        obtain ⟨c, t, hct, hd⟩ := natChars_cons i.natAbs
        rw [henc, hct]
        simp only [List.cons_append]
        rw [pVal_minus f2 c (t ++ rest), if_pos hd]
        have hp : pNatAcc (c.toNat - 48) (t ++ rest) = (i.natAbs, rest) := by
          have h0 := pNat_complete i.natAbs rest hr
          rw [hct] at h0
          simp only [List.cons_append] at h0
          rw [pNatAcc_digit 0 c (t ++ rest) hd] at h0
          simpa using h0
        simp only [hp]
        have hiabs : -((i.natAbs : Nat) : Int) = i := by omega
        rw [hiabs]
      · have henc : encJson (Json.num i) = natChars i.toNat := by
          show intChars i = _
          rw [intChars, if_neg hi]
        obtain ⟨c, t, hct, hd⟩ := natChars_cons i.toNat
        have hne := digit_ne_literals c hd
        rw [henc, hct]
        simp only [List.cons_append]
        rw [pVal_digit f2 c (t ++ rest) hd hne.1 hne.2.1 hne.2.2.1 hne.2.2.2.1
          hne.2.2.2.2.1 hne.2.2.2.2.2.1 hne.2.2.2.2.2.2.1]
        have hp : pNatAcc (c.toNat - 48) (t ++ rest) = (i.toNat, rest) := by
          have h0 := pNat_complete i.toNat rest hr
          rw [hct] at h0
          simp only [List.cons_append] at h0
          rw [pNatAcc_digit 0 c (t ++ rest) hd] at h0
          simpa using h0
        simp only [hp]
        have htn : ((i.toNat : Nat) : Int) = i := Int.toNat_of_nonneg (by omega)
        rw [htn]
  | .str s, f, rest, hf, _ => by
    cases f with
    | zero => exact absurd hf (Nat.not_lt_zero _)
    | succ f2 =>
      have henc : encJson (Json.str s) ++ rest = '"' :: (escStr s.data ++ '"' :: rest) := by
        show ('"' :: (escStr s.data ++ ['"'])) ++ rest = _
        simp
      rw [henc, pVal_quote, pStr_escStr]
  | .arr [], f, rest, hf, _ => by
    cases f with
    | zero => exact absurd hf (Nat.not_lt_zero _)
    | succ f2 => rfl
  | .arr [v], f, rest, hf, _ => by
    cases f with
    | zero => exact absurd hf (Nat.not_lt_zero _)
    | succ f2 =>
      obtain ⟨c, t, hct, hcne, -⟩ := encJson_head v
      have h1 : encJson (Json.arr [v]) ++ rest = '[' :: (encJson v ++ (']' :: rest)) := by
        show ('[' :: (encElems [v] ++ [']'])) ++ rest = _
        rw [show encElems [v] = encJson v from by simp [encElems]]
        simp
      rw [h1] at hf
      simp only [List.length_cons] at hf
      have hv := pVal_encJson v f2 (']' :: rest) (by omega) rfl
      rw [h1]
      rw [show encJson v ++ (']' :: rest) = c :: (t ++ (']' :: rest)) from by
        rw [hct]; simp]
      rw [pVal_arr_cons, if_neg hcne]
      rw [show c :: (t ++ (']' :: rest)) = encJson v ++ (']' :: rest) from by
        rw [hct]; simp]
      rw [hv]
      rfl
  | .arr (v :: w :: ws), f, rest, hf, hr => by
    cases f with
    | zero => exact absurd hf (Nat.not_lt_zero _)
    | succ f2 =>
      obtain ⟨c, t, hct, hcne, -⟩ := encJson_head v
      have h1 : encJson (Json.arr (v :: w :: ws)) ++ rest =
          '[' :: (encJson v ++ (',' :: (encElems (w :: ws) ++ (']' :: rest)))) := by
        show ('[' :: (encElems (v :: w :: ws) ++ [']'])) ++ rest = _
        rw [show encElems (v :: w :: ws) = encJson v ++ ',' :: encElems (w :: ws) from by
          simp [encElems]]
        simp
      have h2 : encJson (Json.arr (w :: ws)) ++ rest =
          '[' :: (encElems (w :: ws) ++ (']' :: rest)) := by
        show ('[' :: (encElems (w :: ws) ++ [']'])) ++ rest = _
        simp
      have hlv : 1 ≤ (encJson v).length := by
        rw [hct, List.length_cons]; omega
      rw [h1] at hf
      simp only [List.length_cons, List.length_append] at hf
      have hv := pVal_encJson v f2 (',' :: (encElems (w :: ws) ++ (']' :: rest)))
        (by simp only [List.length_cons, List.length_append]; omega) rfl
      have hws := pVal_encJson (Json.arr (w :: ws)) f2 rest
        (by rw [h2]; simp only [List.length_cons, List.length_append]; omega) hr
      rw [h1]
      rw [show encJson v ++ (',' :: (encElems (w :: ws) ++ (']' :: rest))) =
          c :: (t ++ (',' :: (encElems (w :: ws) ++ (']' :: rest)))) from by
        rw [hct]; simp]
      rw [pVal_arr_cons, if_neg hcne]
      rw [show c :: (t ++ (',' :: (encElems (w :: ws) ++ (']' :: rest)))) =
          encJson v ++ (',' :: (encElems (w :: ws) ++ (']' :: rest))) from by
        rw [hct]; simp]
      rw [hv]
      show (match pVal f2 ('[' :: (encElems (w :: ws) ++ (']' :: rest))) with
            | some (Json.arr vs, r3) => some (Json.arr (v :: vs), r3)
            | _ => none) = some (Json.arr (v :: w :: ws), rest)
      rw [show ('[' : Char) :: (encElems (w :: ws) ++ (']' :: rest)) =
          encJson (Json.arr (w :: ws)) ++ rest from h2.symm]
      rw [hws]
  | .obj [], f, rest, hf, _ => by
    cases f with
    | zero => exact absurd hf (Nat.not_lt_zero _)
    | succ f2 => rfl
  | .obj [(k, v)], f, rest, hf, _ => by
    cases f with
    | zero => exact absurd hf (Nat.not_lt_zero _)
    | succ f2 =>
      have h1 : encJson (Json.obj [(k, v)]) ++ rest =
          '\x7b' :: '"' :: (escStr k.data ++ ('"' :: (':' :: (encJson v ++ ('\x7d' :: rest))))) := by
        show ('\x7b' :: (encMembers [(k, v)] ++ ['\x7d'])) ++ rest = _
        rw [show encMembers [(k, v)] = encKV (k, v) from by simp [encMembers]]
        show ('\x7b' :: (('"' :: (escStr k.data ++ '"' :: ':' :: encJson v)) ++ ['\x7d'])) ++ rest = _
        simp
      rw [h1] at hf
      simp only [List.length_cons, List.length_append] at hf
      have hv := pVal_encJson v f2 ('\x7d' :: rest)
        (by simp only [List.length_cons, List.length_append]; omega) rfl
      rw [h1, pVal_obj_cons, if_neg (show ('"' : Char) ≠ '\x7d' from by decide),
        if_pos (show ('"' : Char) = '"' from rfl)]
      rw [show escStr k.data ++ ('"' :: (':' :: (encJson v ++ ('\x7d' :: rest)))) =
          escStr k.data ++ '"' :: (':' :: (encJson v ++ ('\x7d' :: rest))) from rfl]
      rw [pStr_escStr]
      show (match pVal f2 (encJson v ++ ('\x7d' :: rest)) with
            | some (v2, r3) =>
              match r3 with
              | '\x7d' :: r4 => some (Json.obj [(String.mk k.data, v2)], r4)
              | ',' :: r4 =>
                match pVal f2 ('\x7b' :: r4) with
                | some (Json.obj ms, r5) => some (Json.obj ((String.mk k.data, v2) :: ms), r5)
                | _ => none
              | _ => none
            | none => none) = some (Json.obj [(k, v)], rest)
      rw [hv]
      rfl
  | .obj ((k, v) :: m :: ms), f, rest, hf, hr => by
    cases f with
    | zero => exact absurd hf (Nat.not_lt_zero _)
    | succ f2 =>
      have h1 : encJson (Json.obj ((k, v) :: m :: ms)) ++ rest =
          '\x7b' :: '"' :: (escStr k.data ++ ('"' :: (':' ::
            (encJson v ++ (',' :: (encMembers (m :: ms) ++ ('\x7d' :: rest))))))) := by
        show ('\x7b' :: (encMembers ((k, v) :: m :: ms) ++ ['\x7d'])) ++ rest = _
        rw [show encMembers ((k, v) :: m :: ms) = encKV (k, v) ++ ',' :: encMembers (m :: ms)
          from by simp [encMembers]]
        show ('\x7b' :: ((('"' :: (escStr k.data ++ '"' :: ':' :: encJson v))
          ++ ',' :: encMembers (m :: ms)) ++ ['\x7d'])) ++ rest = _
        simp
      have h2 : encJson (Json.obj (m :: ms)) ++ rest =
          '\x7b' :: (encMembers (m :: ms) ++ ('\x7d' :: rest)) := by
        show ('\x7b' :: (encMembers (m :: ms) ++ ['\x7d'])) ++ rest = _
        simp
      obtain ⟨cv, tv, hctv, -, -⟩ := encJson_head v
      have hlv : 1 ≤ (encJson v).length := by
        rw [hctv, List.length_cons]; omega
      rw [h1] at hf
      simp only [List.length_cons, List.length_append] at hf
      have hv := pVal_encJson v f2 (',' :: (encMembers (m :: ms) ++ ('\x7d' :: rest)))
        (by simp only [List.length_cons, List.length_append]; omega) rfl
      have hms := pVal_encJson (Json.obj (m :: ms)) f2 rest
        (by rw [h2]; simp only [List.length_cons, List.length_append]; omega) hr
      rw [h1, pVal_obj_cons, if_neg (show ('"' : Char) ≠ '\x7d' from by decide),
        if_pos (show ('"' : Char) = '"' from rfl)]
      rw [show escStr k.data ++ ('"' :: (':' ::
            (encJson v ++ (',' :: (encMembers (m :: ms) ++ ('\x7d' :: rest)))))) =
          escStr k.data ++ '"' :: (':' ::
            (encJson v ++ (',' :: (encMembers (m :: ms) ++ ('\x7d' :: rest))))) from rfl]
      rw [pStr_escStr]
      show (match pVal f2 (encJson v ++ (',' :: (encMembers (m :: ms) ++ ('\x7d' :: rest)))) with
            | some (v2, r3) =>
              match r3 with
              | '\x7d' :: r4 => some (Json.obj [(String.mk k.data, v2)], r4)
              | ',' :: r4 =>
                match pVal f2 ('\x7b' :: r4) with
                | some (Json.obj ms2, r5) => some (Json.obj ((String.mk k.data, v2) :: ms2), r5)
                | _ => none
              | _ => none
            | none => none) = some (Json.obj ((k, v) :: m :: ms), rest)
      rw [hv]
      show (match pVal f2 ('\x7b' :: (encMembers (m :: ms) ++ ('\x7d' :: rest))) with
            | some (Json.obj ms2, r5) => some (Json.obj ((String.mk k.data, v) :: ms2), r5)
            | _ => none) = some (Json.obj ((k, v) :: m :: ms), rest)
      rw [show ('\x7b' : Char) :: (encMembers (m :: ms) ++ ('\x7d' :: rest)) =
          encJson (Json.obj (m :: ms)) ++ rest from h2.symm]
      rw [hms]
termination_by j _ _ _ _ => sizeOf j

/-- Encode-then-decode is the identity on every JSON value. -/
theorem decode_encode (j : Json) : Json.decode (Json.encode j) = some j := by
  show (match pVal ((encJson j).length + 1) (encJson j) with
        | some (j2, []) => some j2
        | _ => none) = some j
  have h := pVal_encJson j ((encJson j).length + 1) [] (by simp) rfl
  rw [List.append_nil] at h
  rw [h]

/-- C8: encoding a JSON-compatible value as a JSON body and decoding it
back yields an equal value, and whenever a request reaches the network
and comes back with a success status whose body is (the encoding of) a
well-formed JSON value, the operation returns exactly that decoded value,
imposing no schema on it. -/
theorem json_roundtrip_request (j : Json) (c : RecordMcpClient)
    (transport : HttpRequest → HttpResponse) (endpoint method : String) (body : Option Json)
    (hm : method = "GET" ∨ method = "POST") :
    Json.decode (Json.encode j) = some j
    ∧ ∀ req : HttpRequest, (c.request transport endpoint method body).1 = [req] →
        isErrorStatus (transport req).status = false →
        (transport req).body = Json.encode j →
        (c.request transport endpoint method body).2 = .ok j := by
  refine ⟨decode_encode j, fun req h1 hs hb => ?_⟩
  rcases hm with h | h
  · subst h
    have h2 : req = ⟨c.base_url ++ endpoint, "GET", c.session_headers, none⟩ := by
      have h3 : (c.request transport endpoint "GET" none).1 =
          [⟨c.base_url ++ endpoint, "GET", c.session_headers, none⟩] := rfl
      have h4 := h1.symm.trans (show (c.request transport endpoint "GET" body).1 =
        [⟨c.base_url ++ endpoint, "GET", c.session_headers, none⟩] from rfl)
      simpa using h4
    show finishResponse (transport ⟨c.base_url ++ endpoint, "GET", c.session_headers, none⟩)
      = .ok j
    rw [← h2]
    exact finishResponse_ok _ j hs (by rw [hb]; exact decode_encode j)
  · subst h
    have h2 : req = ⟨c.base_url ++ endpoint, "POST", c.session_headers, body⟩ := by
      have h4 := h1.symm.trans (show (c.request transport endpoint "POST" body).1 =
        [⟨c.base_url ++ endpoint, "POST", c.session_headers, body⟩] from rfl)
      simpa using h4
    show finishResponse (transport ⟨c.base_url ++ endpoint, "POST", c.session_headers, body⟩)
      = .ok j
    rw [← h2]
    exact finishResponse_ok _ j hs (by rw [hb]; exact decode_encode j)

theorem json_roundtrip_request_witness :
    ((RecordMcpClient.init "http://e" "k").request
        (fun _ => ⟨200, Json.encode (Json.obj [("ok", Json.bool true)])⟩) "/x" "GET" none).2 =
      .ok (Json.obj [("ok", Json.bool true)]) := by
  have h := json_roundtrip_request (Json.obj [("ok", Json.bool true)])
    (RecordMcpClient.init "http://e" "k")
    (fun _ => ⟨200, Json.encode (Json.obj [("ok", Json.bool true)])⟩) "/x" "GET" none
    (Or.inl rfl)
  exact h.2 ⟨(RecordMcpClient.init "http://e" "k").base_url ++ "/x", "GET",
    (RecordMcpClient.init "http://e" "k").session_headers, none⟩ rfl rfl rfl
